import Mathlib

/-!
# Verification of the genre distinctive-words analysis

A shallow embedding of `src/visualisation/genre_wordcloud.py`:

* the aggregator of `analyze_genre_distinctive_words` (its Step 1), which
  sums per-word counts over the rows of each genre and keeps only the
  strictly positive sums;
* the scorer (its Step 2), which attaches the TF-IDF-like score
  `tf * log(G / df)` to each word of each genre, sorts each genre's words
  by descending score with Python's stable sort, and keeps the first
  `top_n`;
* the renderer helpers: the word-frequency dictionary built by
  `create_genre_wordclouds` / `save_individual_wordclouds` and the output
  file path of `save_individual_wordclouds`.

Dictionaries (`defaultdict(dict)` and dict comprehensions) are embedded as
association lists in key-insertion order, which is the iteration order of
Python dicts.  Floating point scores are idealised as real numbers; the
float comparison used by `sorted` is embedded through the decidable
relation `score_ge`, proved below (`score_ge_iff_score_val`) to order
pairs exactly as the real-valued scores do.
-/

/-- One row of the tabular dataset: its genre label and the value of each
numeric word-count column (the data-model invariant makes these
non-negative integers). -/
structure Row where
  genre : String
  counts : String → Nat

/-- The tabular dataset: the list of column names present (`df.columns`)
and its rows. -/
structure Dataset where
  columns : List String
  rows : List Row

/-- The elements of `l` in order of first appearance, without duplicates:
the order `pandas.unique` returns values in, and the key order a Python
dict ends up with when the elements are assigned in list order. -/
def first_seen {α : Type} [DecidableEq α] : List α → List α
  | [] => []
  | x :: xs => x :: (first_seen xs).filter (fun y => y != x)

/-- `df[genre_column].unique()`: the distinct genre values in order of
first appearance. -/
def unique_genres (d : Dataset) : List String :=
  first_seen (d.rows.map Row.genre)

/-- `genre_songs[word_col].sum()`: the summed count of column `w` over the
rows whose genre is `g`. -/
def genre_sum (d : Dataset) (g w : String) : Nat :=
  ((d.rows.filter (fun r => r.genre == g)).map (fun r => r.counts w)).sum

/-- The word columns actually looped over and present in the dataset
(`if word_col in df.columns`), in first-assignment order. -/
def word_cols (d : Dataset) (word_columns : List String) : List String :=
  first_seen (word_columns.filter (fun w => decide (w ∈ d.columns)))

/-- Step 1, inner loop: the count mapping built for genre `g` — each
present word column whose summed count is strictly positive, with that
sum, in insertion order. -/
def genre_words (d : Dataset) (word_columns : List String) (g : String) :
    List (String × Nat) :=
  (word_cols d word_columns).filterMap
    (fun w => if 0 < genre_sum d g w then some (w, genre_sum d g w) else none)

/-- Step 1: `genre_word_counts`.  A genre becomes a key of the
`defaultdict` only when at least one positive-count assignment happens for
it, so genres whose word lists are empty never appear. -/
def genre_word_counts (d : Dataset) (word_columns : List String) :
    List (String × List (String × Nat)) :=
  (unique_genres d).filterMap
    (fun g =>
      if genre_words d word_columns g = [] then none
      else some (g, genre_words d word_columns g))

/-- `df_count`: the number of genres of `genre_word_counts` whose count
mapping contains `word` as a key. -/
def df_count (gwc : List (String × List (String × Nat))) (word : String) : Nat :=
  gwc.countP (fun p => p.2.any (fun q => q.1 == word))

/-- `idf = np.log(len(genre_word_counts) / df_count)`, idealised over the
reals. -/
noncomputable def idf (G df : Nat) : ℝ :=
  Real.log ((G : ℝ) / (df : ℝ))

/-- `word_scores[word] = tf * idf`. -/
noncomputable def score_val (G tf df : Nat) : ℝ :=
  (tf : ℝ) * idf G df

/-- `np.log(len(genre_word_counts) / df_count)` with the partiality of the
source made explicit: Python's integer true division raises
`ZeroDivisionError` when `df_count = 0`, so the evaluation is modelled as
`Option`, defined exactly when the divisor is nonzero. -/
noncomputable def idf_checked (G df : Nat) : Option ℝ :=
  if df = 0 then none else some (idf G df)

/-- The data of `word_scores.items()` for one genre: each word of the
genre's count mapping, in insertion order, paired with the `tf` and
`df_count` that determine its score `score_val G tf df`. -/
def word_tf_df (gwc : List (String × List (String × Nat)))
    (ws : List (String × Nat)) : List (String × Nat × Nat) :=
  ws.map (fun p => (p.1, p.2, df_count gwc p.1))

/-- The comparison `score of a ≥ score of b` used by
`sorted(..., key=lambda x: x[1], reverse=True)`, in the decidable form
`G ^ tf_b * df_a ^ tf_a ≤ G ^ tf_a * df_b ^ tf_b`; the lemma
`score_ge_iff_score_val` shows it agrees with the real-valued scores. -/
def score_ge (G : Nat) (a b : String × Nat × Nat) : Prop :=
  G ^ b.2.1 * a.2.2 ^ a.2.1 ≤ G ^ a.2.1 * b.2.2 ^ b.2.1

instance score_ge_decidable (G : Nat) : DecidableRel (score_ge G) :=
  fun _ _ => Nat.decLe _ _

/-- `sorted(word_scores.items(), key=lambda x: x[1], reverse=True)[:top_n]`:
Python's sort is stable, embedded as stable insertion sort by the
descending-score relation. -/
def top_words (gwc : List (String × List (String × Nat)))
    (ws : List (String × Nat)) (top_n : Nat) : List (String × Nat × Nat) :=
  (List.insertionSort (score_ge gwc.length) (word_tf_df gwc ws)).take top_n

/-- One genre's entry of the result: its top words with their real-valued
scores attached. -/
noncomputable def genre_result (gwc : List (String × List (String × Nat)))
    (ws : List (String × Nat)) (top_n : Nat) : List (String × ℝ) :=
  (top_words gwc ws top_n).map (fun q => (q.1, score_val gwc.length q.2.1 q.2.2))

/-- Step 2: `distinctive_words` — every genre key of `genre_word_counts`,
in order, mapped to its ranked top-`top_n` scored words. -/
noncomputable def distinctive_words (gwc : List (String × List (String × Nat)))
    (top_n : Nat) : List (String × List (String × ℝ)) :=
  gwc.map (fun p => (p.1, genre_result gwc p.2 top_n))

/-- The whole of `analyze_genre_distinctive_words`. -/
noncomputable def analyze_genre_distinctive_words (d : Dataset)
    (word_columns : List String) (top_n : Nat) : List (String × List (String × ℝ)) :=
  distinctive_words (genre_word_counts d word_columns) top_n

/-- `genre_word_counts` has word `w` recorded under genre `g`. -/
def recorded (gwc : List (String × List (String × Nat))) (g w : String) : Prop :=
  gwc.any (fun p => p.1 == g && p.2.any (fun q => q.1 == w)) = true

instance recorded_decidable (gwc : List (String × List (String × Nat)))
    (g w : String) : Decidable (recorded gwc g w) :=
  instDecidableEqBool _ _

/-- The number of genres of `gwc` whose mapping gives `w` a strictly
positive count. -/
def pos_genres (gwc : List (String × List (String × Nat))) (w : String) : Nat :=
  gwc.countP (fun p => p.2.any (fun q => q.1 == w && decide (0 < q.2)))

/-- `genre.replace('/', '_')` of `save_individual_wordclouds`: the pattern
is the single character `'/'`, so the replacement acts characterwise. -/
def sanitize_genre (g : String) : String :=
  ⟨g.data.map (fun c => if c = '/' then '_' else c)⟩

/-- The path `f"{save_path}{genre.replace('/', '_')}_wordcloud.png"` given
to `plt.savefig`. -/
def wordcloud_path (save_path g : String) : String :=
  save_path ++ sanitize_genre g ++ "_wordcloud.png"

/-- `word.replace('_', ' ')`, applied to every scored word by both
renderers when building the frequency dictionary. -/
def display_word (w : String) : String :=
  ⟨w.data.map (fun c => if c = '_' then ' ' else c)⟩

/-- Python dict assignment `d[k] = v` on an association list: replace the
value at an existing key in place, else append the new key. -/
def dict_insert {α : Type} : List (String × α) → String → α → List (String × α)
  | [], k, v => [(k, v)]
  | p :: d, k, v => if p.1 == k then (k, v) :: d else p :: dict_insert d k v

/-- The dict comprehension
`{word.replace('_', ' '): score for word, score in distinctive_words[genre]}`
of `create_genre_wordclouds` (lines 72-73) and
`save_individual_wordclouds` (lines 135-136): keys are display words,
later pairs overwrite earlier ones. -/
def word_freq {α : Type} (l : List (String × α)) : List (String × α) :=
  l.foldl (fun acc p => dict_insert acc (display_word p.1) p.2) []

/-! ### Concrete data for the witnesses -/

/-- A small concrete dataset: one rock song with counts
`guitar = 10`, `axe = 10`, `love = 5` and one jazz song with
`swing = 5`, `love = 5`. -/
def sample_data : Dataset :=
  ⟨["track_id", "genre", "guitar", "axe", "swing", "love"],
   [⟨"rock", fun w => if w = "guitar" then 10 else if w = "axe" then 10 else
      if w = "love" then 5 else 0⟩,
    ⟨"jazz", fun w => if w = "swing" then 5 else if w = "love" then 5 else 0⟩]⟩

/-- Word columns passed to the analysis; `"absent"` is not a column of
`sample_data` and exercises the silent-skip branch. -/
def sample_cols : List String := ["guitar", "axe", "swing", "love", "absent"]

/-- A dataset whose single genre `"rock"` has every word column summing to
zero. -/
def empty_genre_data : Dataset := ⟨["genre", "w"], [⟨"rock", fun _ => 0⟩]⟩

/-- Two scored words whose display forms collide:
`"a_b".replace('_', ' ') = "a b"`. -/
noncomputable def collide_list : List (String × ℝ) := [("a_b", 1), ("a b", 2)]

/-! ### Properties of `first_seen` and the aggregator -/

theorem mem_first_seen {α : Type} [DecidableEq α] {x : α} :
    ∀ {l : List α}, x ∈ first_seen l ↔ x ∈ l
  | [] => Iff.rfl
  | y :: ys => by
    simp only [first_seen, List.mem_cons, List.mem_filter, bne_iff_ne, ne_eq,
      mem_first_seen (l := ys)]
    by_cases hxy : x = y <;> simp [hxy]

theorem nodup_first_seen {α : Type} [DecidableEq α] :
    ∀ (l : List α), (first_seen l).Nodup
  | [] => List.nodup_nil
  | y :: ys => by
    simp only [first_seen, List.nodup_cons]
    refine ⟨fun hmem => ?_, (nodup_first_seen ys).filter _⟩
    simp [List.mem_filter] at hmem

theorem mem_unique_genres {d : Dataset} {g : String} :
    g ∈ unique_genres d ↔ g ∈ d.rows.map Row.genre :=
  mem_first_seen

theorem genre_mem_of_genre_sum_pos {d : Dataset} {g w : String}
    (h : 0 < genre_sum d g w) : g ∈ d.rows.map Row.genre := by
  by_contra hg
  have hfil : d.rows.filter (fun r => r.genre == g) = [] := by
    rw [List.filter_eq_nil_iff]
    intro r hr hgen
    exact hg (List.mem_map.mpr ⟨r, hr, by simpa using hgen⟩)
  rw [genre_sum, hfil] at h
  simp at h

theorem mem_genre_words {d : Dataset} {cols : List String} {g w : String} {c : Nat} :
    (w, c) ∈ genre_words d cols g ↔
      w ∈ cols ∧ w ∈ d.columns ∧ 0 < genre_sum d g w ∧ c = genre_sum d g w := by
  unfold genre_words word_cols
  simp only [List.mem_filterMap, mem_first_seen, List.mem_filter, decide_eq_true_eq]
  constructor
  · rintro ⟨a, ⟨ha1, ha2⟩, hsome⟩
    by_cases hpos : 0 < genre_sum d g a
    · simp only [if_pos hpos, Option.some.injEq, Prod.mk.injEq] at hsome
      obtain ⟨rfl, rfl⟩ := hsome
      exact ⟨ha1, ha2, hpos, rfl⟩
    · simp [if_neg hpos] at hsome
  · rintro ⟨h1, h2, h3, rfl⟩
    exact ⟨w, ⟨h1, h2⟩, by simp [if_pos h3]⟩

theorem mem_genre_word_counts {d : Dataset} {cols : List String} {g : String}
    {ws : List (String × Nat)} :
    (g, ws) ∈ genre_word_counts d cols ↔
      g ∈ d.rows.map Row.genre ∧ ws = genre_words d cols g ∧ ws ≠ [] := by
  unfold genre_word_counts
  simp only [List.mem_filterMap]
  constructor
  · rintro ⟨a, ha, hsome⟩
    by_cases hnil : genre_words d cols a = []
    · simp [if_pos hnil] at hsome
    · simp only [if_neg hnil, Option.some.injEq, Prod.mk.injEq] at hsome
      obtain ⟨rfl, rfl⟩ := hsome
      exact ⟨mem_unique_genres.mp ha, rfl, hnil⟩
  · rintro ⟨h1, rfl, hnil⟩
    exact ⟨g, mem_unique_genres.mpr h1, by simp [if_neg hnil]⟩

theorem df_count_pos {gwc : List (String × List (String × Nat))}
    {g w : String} {ws : List (String × Nat)} {c : Nat}
    (hg : (g, ws) ∈ gwc) (hw : (w, c) ∈ ws) : 1 ≤ df_count gwc w :=
  List.countP_pos_iff.mpr
    ⟨(g, ws), hg, by simp only [List.any_eq_true]; exact ⟨(w, c), hw, by simp⟩⟩

theorem count_pos_of_mem_gwc {d : Dataset} {cols : List String} {g w : String}
    {ws : List (String × Nat)} {c : Nat}
    (hg : (g, ws) ∈ genre_word_counts d cols) (hw : (w, c) ∈ ws) : 0 < c := by
  obtain ⟨-, rfl, -⟩ := mem_genre_word_counts.mp hg
  obtain ⟨-, -, hpos, rfl⟩ := mem_genre_words.mp hw
  exact hpos

theorem pos_genres_eq_df_count {d : Dataset} {cols : List String} (w : String) :
    pos_genres (genre_word_counts d cols) w = df_count (genre_word_counts d cols) w := by
  refine List.countP_congr fun p hp => ?_
  simp only [List.any_eq_true, Bool.and_eq_true, decide_eq_true_eq]
  constructor
  · rintro ⟨q, hq, hbeq, -⟩
    exact ⟨q, hq, hbeq⟩
  · rintro ⟨⟨qw, qc⟩, hq, hbeq⟩
    exact ⟨(qw, qc), hq, hbeq, count_pos_of_mem_gwc (by simpa using hp) hq⟩

theorem nodup_genre_words {d : Dataset} {cols : List String} {g : String} :
    (genre_words d cols g).Nodup := by
  refine List.Nodup.filterMap ?_ (nodup_first_seen _)
  intro a a' b hb hb'
  by_cases ha : 0 < genre_sum d g a
  · by_cases ha' : 0 < genre_sum d g a'
    · simp only [if_pos ha] at hb
      simp only [if_pos ha'] at hb'
      cases hb; cases hb'; rfl
    · simp [if_neg ha'] at hb'
  · simp [if_neg ha] at hb

theorem nodup_word_tf_df {gwc : List (String × List (String × Nat))}
    {ws : List (String × Nat)} (h : ws.Nodup) : (word_tf_df gwc ws).Nodup :=
  h.map fun p p' hpp => by
    simp only [Prod.mk.injEq] at hpp
    obtain ⟨pa, pb⟩ := p
    obtain ⟨pa', pb'⟩ := p'
    simp_all

theorem mem_word_tf_df {gwc : List (String × List (String × Nat))}
    {ws : List (String × Nat)} {e : String × Nat × Nat} :
    e ∈ word_tf_df gwc ws ↔ (e.1, e.2.1) ∈ ws ∧ e.2.2 = df_count gwc e.1 := by
  unfold word_tf_df
  rw [List.mem_map]
  constructor
  · rintro ⟨p, hp, rfl⟩
    exact ⟨hp, rfl⟩
  · rintro ⟨hp, he⟩
    exact ⟨(e.1, e.2.1), hp, by rw [← he]⟩

/-! ### The decidable comparison agrees with the real-valued scores -/

theorem idf_df_one (G : Nat) : idf G 1 = Real.log G := by
  simp [idf]

theorem idf_df_self (G : Nat) : idf G G = 0 := by
  by_cases hG : (G : ℝ) = 0
  · simp [idf, hG]
  · simp [idf, div_self hG]

theorem score_ge_iff_score_val {G : Nat} {a b : String × Nat × Nat}
    (hG : 1 ≤ G) (ha : 1 ≤ a.2.2) (hb : 1 ≤ b.2.2) :
    score_ge G a b ↔ score_val G b.2.1 b.2.2 ≤ score_val G a.2.1 a.2.2 := by
  have hGpos : (0 : ℝ) < (G : ℝ) := by exact_mod_cast hG
  have hapos : (0 : ℝ) < (a.2.2 : ℝ) := by exact_mod_cast ha
  have hbpos : (0 : ℝ) < (b.2.2 : ℝ) := by exact_mod_cast hb
  have hx : (0 : ℝ) < (G : ℝ) / (a.2.2 : ℝ) := div_pos hGpos hapos
  have hy : (0 : ℝ) < (G : ℝ) / (b.2.2 : ℝ) := div_pos hGpos hbpos
  have hsv : ∀ tf df : Nat,
      score_val G tf df = Real.log (((G : ℝ) / (df : ℝ)) ^ tf) := fun tf df => by
    rw [score_val, idf, Real.log_pow]
  rw [hsv a.2.1 a.2.2, hsv b.2.1 b.2.2,
    Real.log_le_log_iff (pow_pos hy _) (pow_pos hx _),
    div_pow, div_pow, div_le_div_iff₀ (pow_pos hbpos _) (pow_pos hapos _)]
  unfold score_ge
  constructor
  · intro h; exact_mod_cast h
  · intro h; exact_mod_cast h

theorem score_ge_total (G : Nat) (a b : String × Nat × Nat) :
    score_ge G a b ∨ score_ge G b a :=
  Nat.le_total _ _

theorem score_ge_trans {G : Nat} (hG : 1 ≤ G) {a b c : String × Nat × Nat}
    (h1 : score_ge G a b) (h2 : score_ge G b c) : score_ge G a c := by
  unfold score_ge at h1 h2 ⊢
  have key : G ^ b.2.1 * (G ^ c.2.1 * a.2.2 ^ a.2.1) ≤
      G ^ b.2.1 * (G ^ a.2.1 * c.2.2 ^ c.2.1) := by
    calc G ^ b.2.1 * (G ^ c.2.1 * a.2.2 ^ a.2.1)
        = G ^ c.2.1 * (G ^ b.2.1 * a.2.2 ^ a.2.1) := by ring
      _ ≤ G ^ c.2.1 * (G ^ a.2.1 * b.2.2 ^ b.2.1) := Nat.mul_le_mul_left _ h1
      _ = G ^ a.2.1 * (G ^ c.2.1 * b.2.2 ^ b.2.1) := by ring
      _ ≤ G ^ a.2.1 * (G ^ b.2.1 * c.2.2 ^ c.2.1) := Nat.mul_le_mul_left _ h2
      _ = G ^ b.2.1 * (G ^ a.2.1 * c.2.2 ^ c.2.1) := by ring
  exact Nat.le_of_mul_le_mul_left key (pow_pos hG _)

/-! ### The ranked lists -/

theorem mem_word_tf_df_of_mem_top_words {gwc : List (String × List (String × Nat))}
    {ws : List (String × Nat)} {n : Nat} {e : String × Nat × Nat}
    (he : e ∈ top_words gwc ws n) : e ∈ word_tf_df gwc ws :=
  (List.mem_insertionSort _).mp (List.take_subset n _ he)

theorem one_le_length_of_mem {gwc : List (String × List (String × Nat))}
    {g : String} {ws : List (String × Nat)} (hg : (g, ws) ∈ gwc) :
    1 ≤ gwc.length :=
  List.length_pos.mpr (List.ne_nil_of_mem hg)

theorem df_pos_of_mem_word_tf_df {gwc : List (String × List (String × Nat))}
    {g : String} {ws : List (String × Nat)} (hg : (g, ws) ∈ gwc)
    {e : String × Nat × Nat} (he : e ∈ word_tf_df gwc ws) : 1 ≤ e.2.2 := by
  obtain ⟨hmem, hdf⟩ := mem_word_tf_df.mp he
  rw [hdf]
  exact df_count_pos hg hmem

theorem pairwise_top_words {gwc : List (String × List (String × Nat))}
    {ws : List (String × Nat)} {n : Nat} (hG : 1 ≤ gwc.length) :
    (top_words gwc ws n).Pairwise (score_ge gwc.length) := by
  haveI : IsTotal (String × Nat × Nat) (score_ge gwc.length) := ⟨score_ge_total _⟩
  haveI : IsTrans (String × Nat × Nat) (score_ge gwc.length) :=
    ⟨fun _ _ _ => score_ge_trans hG⟩
  exact List.Pairwise.sublist (List.take_sublist _ _) (List.sorted_insertionSort _ _)

theorem genre_result_sorted {gwc : List (String × List (String × Nat))}
    {g : String} {ws : List (String × Nat)} {n : Nat} (hg : (g, ws) ∈ gwc) :
    (genre_result gwc ws n).Pairwise (fun p q => q.2 ≤ p.2) := by
  have hG := one_le_length_of_mem hg
  rw [genre_result, List.pairwise_map]
  refine (pairwise_top_words hG).imp_of_mem ?_
  intro a b hma hmb hr
  exact (score_ge_iff_score_val hG
    (df_pos_of_mem_word_tf_df hg (mem_word_tf_df_of_mem_top_words hma))
    (df_pos_of_mem_word_tf_df hg (mem_word_tf_df_of_mem_top_words hmb))).mp hr

theorem genre_result_length_le {gwc : List (String × List (String × Nat))}
    {ws : List (String × Nat)} {n : Nat} : (genre_result gwc ws n).length ≤ n := by
  rw [genre_result, List.length_map, top_words]
  exact (List.length_take_le _ _)

/-! ### Stability of the sort under tied scores -/

theorem pair_sublist_of_mem {α : Type} {a b : α} :
    ∀ {l : List α}, a ∈ l → b ∈ l → a ≠ b →
      List.Sublist [a, b] l ∨ List.Sublist [b, a] l := by
  intro l
  induction l with
  | nil => simp
  | cons x t ih =>
    intro ha hb hne
    rcases List.mem_cons.mp ha with rfl | ha'
    · rcases List.mem_cons.mp hb with rfl | hb'
      · exact absurd rfl hne
      · exact Or.inl ((List.singleton_sublist.mpr hb').cons₂ _)
    · rcases List.mem_cons.mp hb with rfl | hb'
      · exact Or.inr ((List.singleton_sublist.mpr ha').cons₂ _)
      · rcases ih ha' hb' hne with h | h
        · exact Or.inl (h.cons _)
        · exact Or.inr (h.cons _)

theorem sublist_pair_antisymm {α : Type} {a b : α} :
    ∀ {l : List α}, l.Nodup → List.Sublist [a, b] l → List.Sublist [b, a] l → a = b := by
  intro l
  induction l with
  | nil => intro _ h; exact absurd (List.eq_nil_of_sublist_nil h) (by simp)
  | cons x t ih =>
    intro hnd h1 h2
    rw [List.nodup_cons] at hnd
    cases h1 with
    | cons _ h1' =>
      cases h2 with
      | cons _ h2' => exact ih hnd.2 h1' h2'
      | cons₂ _ h2' =>
        exact absurd (h1'.subset (by simp)) hnd.1
    | cons₂ _ h1' =>
      cases h2 with
      | cons _ h2' =>
        exact absurd (h2'.subset (by simp)) hnd.1
      | cons₂ _ h2' => rfl

theorem nodup_ws_of_mem_gwc {d : Dataset} {cols : List String} {g : String}
    {ws : List (String × Nat)} (hg : (g, ws) ∈ genre_word_counts d cols) :
    ws.Nodup := by
  obtain ⟨-, rfl, -⟩ := mem_genre_word_counts.mp hg
  exact nodup_genre_words

/-! ### The renderer dictionary -/

theorem lookup_dict_insert {α : Type} (k k' : String) (v : α) :
    ∀ (d : List (String × α)), List.lookup k (dict_insert d k' v) =
      if k = k' then some v else List.lookup k d
  | [] => by
    by_cases h : k = k'
    · simp [dict_insert, List.lookup, h]
    · have hb : (k == k') = false := by simpa using h
      simp [dict_insert, List.lookup, hb, h]
  | ⟨pk, pv⟩ :: d => by
    by_cases hp : pk = k'
    · subst hp
      rw [dict_insert, if_pos (by simp)]
      by_cases h : k = pk
      · simp [List.lookup, h]
      · have hb : (k == pk) = false := by simpa using h
        simp [List.lookup, hb, h]
    · rw [dict_insert, if_neg (by simpa using hp)]
      by_cases h : k = pk
      · have hkk : ¬k = k' := by rw [h]; exact hp
        have hb : (k == pk) = true := by simpa using h
        simp [List.lookup, hb, hkk]
      · have hb : (k == pk) = false := by simpa using h
        simp only [List.lookup, hb]
        rw [lookup_dict_insert k k' v d]

theorem mem_dict_insert {α : Type} {p : String × α} (k : String) (v : α) :
    ∀ {d : List (String × α)}, p ∈ dict_insert d k v → p ∈ d ∨ p.1 = k
  | [], h => by
    simp only [dict_insert, List.mem_singleton] at h
    exact Or.inr (by rw [h])
  | q :: d, h => by
    rw [dict_insert] at h
    by_cases hq : q.1 = k
    · rw [if_pos (by simpa using hq)] at h
      rcases List.mem_cons.mp h with rfl | h'
      · exact Or.inr rfl
      · exact Or.inl (List.mem_cons_of_mem _ h')
    · rw [if_neg (by simpa using hq)] at h
      rcases List.mem_cons.mp h with rfl | h'
      · exact Or.inl (List.mem_cons_self _ _)
      · rcases mem_dict_insert k v h' with h'' | h''
        · exact Or.inl (List.mem_cons_of_mem _ h'')
        · exact Or.inr h''

theorem lookup_word_freq {α : Type} (l : List (String × α)) (k : String) :
    List.lookup k (word_freq l) =
      ((l.filter (fun q => display_word q.1 == k)).getLast?).map Prod.snd := by
  induction l using List.reverseRecOn with
  | nil => rfl
  | append_singleton l p ih =>
    rw [word_freq, List.foldl_append, List.foldl_cons, List.foldl_nil]
    rw [show List.foldl
        (fun acc p => dict_insert acc (display_word p.1) p.2) [] l = word_freq l
      from rfl]
    rw [lookup_dict_insert, List.filter_append]
    by_cases hk : display_word p.1 = k
    · rw [List.filter_cons]
      simp only [hk, beq_self_eq_true, if_true, List.filter_nil]
      rw [List.getLast?_concat]
      simp [hk]
    · have h1 : (display_word p.1 == k) = false := by simpa using hk
      rw [List.filter_cons]
      simp only [h1, Bool.false_eq_true, if_false, List.filter_nil, List.append_nil]
      rw [ih, if_neg (fun he => hk he.symm)]

theorem key_of_word_freq {α : Type} (l : List (String × α)) :
    ∀ p ∈ word_freq l, ∃ q ∈ l, p.1 = display_word q.1 := by
  induction l using List.reverseRecOn with
  | nil => intro p hp; simp [word_freq] at hp
  | append_singleton l q ih =>
    intro p hp
    rw [word_freq, List.foldl_append, List.foldl_cons, List.foldl_nil] at hp
    rw [show List.foldl
        (fun acc p => dict_insert acc (display_word p.1) p.2) [] l = word_freq l
      from rfl] at hp
    rcases mem_dict_insert _ _ hp with h | h
    · obtain ⟨q', hq', he⟩ := ih p h
      exact ⟨q', List.mem_append_left _ hq', he⟩
    · exact ⟨q, List.mem_append_right _ (List.mem_singleton.mpr rfl), h⟩

/-! ### Remaining helpers -/

theorem idf_checked_eq_some {G df : Nat} (h : 1 ≤ df) :
    idf_checked G df = some (idf G df) :=
  if_neg (Nat.one_le_iff_ne_zero.mp h)

theorem idf_checked_zero (G : Nat) : idf_checked G 0 = none := rfl

theorem idf_le_log {G df : Nat} (hG : 1 ≤ G) (hdf : 1 ≤ df) :
    idf G df ≤ Real.log G := by
  have hGpos : (0 : ℝ) < (G : ℝ) := by exact_mod_cast hG
  have hdfpos : (0 : ℝ) < (df : ℝ) := by exact_mod_cast hdf
  rw [idf, Real.log_le_log_iff (div_pos hGpos hdfpos) hGpos]
  exact div_le_self (le_of_lt hGpos) (by exact_mod_cast hdf)

theorem recorded_iff {d : Dataset} {cols : List String} {g w : String} :
    recorded (genre_word_counts d cols) g w ↔
      w ∈ cols ∧ w ∈ d.columns ∧ 0 < genre_sum d g w := by
  rw [recorded, List.any_eq_true]
  constructor
  · rintro ⟨⟨pg, pws⟩, hp, hcond⟩
    simp only [Bool.and_eq_true, beq_iff_eq, List.any_eq_true] at hcond
    obtain ⟨rfl, ⟨qw, qc⟩, hq, hbq⟩ := hcond
    simp only [beq_iff_eq] at hbq
    subst hbq
    obtain ⟨-, rfl, -⟩ := mem_genre_word_counts.mp hp
    obtain ⟨h2, h3, h4, -⟩ := mem_genre_words.mp hq
    exact ⟨h2, h3, h4⟩
  · rintro ⟨h1, h2, h3⟩
    have hwmem : (w, genre_sum d g w) ∈ genre_words d cols g :=
      mem_genre_words.mpr ⟨h1, h2, h3, rfl⟩
    have hgw : (g, genre_words d cols g) ∈ genre_word_counts d cols :=
      mem_genre_word_counts.mpr ⟨genre_mem_of_genre_sum_pos h3, rfl,
        fun hnil => by simp [hnil] at hwmem⟩
    refine ⟨(g, genre_words d cols g), hgw, ?_⟩
    simp only [Bool.and_eq_true, beq_iff_eq, List.any_eq_true]
    exact ⟨trivial, (w, genre_sum d g w), hwmem, by simp⟩

theorem gwc_keys_sub_genres {d : Dataset} {cols : List String} {g : String}
    (h : g ∈ (genre_word_counts d cols).map Prod.fst) :
    g ∈ d.rows.map Row.genre := by
  obtain ⟨⟨pg, pws⟩, hp, he⟩ := List.mem_map.mp h
  subst he
  exact (mem_genre_word_counts.mp hp).1

theorem keys_distinctive_words (gwc : List (String × List (String × Nat))) (n : Nat) :
    (distinctive_words gwc n).map Prod.fst = gwc.map Prod.fst := by
  rw [distinctive_words, List.map_map]
  rfl

theorem genre_words_nil_of_zero {d : Dataset} {cols : List String} {g : String}
    (hz : ∀ w ∈ cols, genre_sum d g w = 0) : genre_words d cols g = [] := by
  rw [genre_words, List.filterMap_eq_nil_iff]
  intro w hw
  have hmem : w ∈ cols := by
    rw [word_cols] at hw
    exact (List.mem_filter.mp (mem_first_seen.mp hw)).1
  rw [if_neg]
  simp [hz w hmem]

theorem zero_genre_not_key {d : Dataset} {cols : List String} {g : String}
    (hz : ∀ w ∈ cols, genre_sum d g w = 0) :
    ((genre_word_counts d cols).map Prod.fst).contains g = false := by
  rw [Bool.eq_false_iff]
  intro hcon
  obtain ⟨⟨pg, pws⟩, hp, he⟩ := List.mem_map.mp (List.elem_iff.mp hcon)
  subst he
  obtain ⟨-, hws, hnil⟩ := mem_genre_word_counts.mp hp
  exact hnil (hws.trans (genre_words_nil_of_zero hz))

theorem top_words_entry_eq {d : Dataset} {cols : List String} {g : String}
    {ws : List (String × Nat)} {n : Nat} {e : String × Nat × Nat}
    (hg : (g, ws) ∈ genre_word_counts d cols)
    (he : e ∈ top_words (genre_word_counts d cols) ws n) :
    e.2.1 = genre_sum d g e.1 ∧ e.2.2 = df_count (genre_word_counts d cols) e.1 := by
  obtain ⟨hmem, hdf⟩ := mem_word_tf_df.mp (mem_word_tf_df_of_mem_top_words he)
  obtain ⟨-, hws, -⟩ := mem_genre_word_counts.mp hg
  subst hws
  obtain ⟨-, -, -, htf⟩ := mem_genre_words.mp hmem
  exact ⟨htf, hdf⟩

/-! ## The claims -/

/-- C1: for every genre `g` of `genre_word_counts` and every word entry of
`g`'s ranked list, the score that `analyze_genre_distinctive_words`
attaches equals `tf * ln(G / df(w))`, where `tf` is the summed count of
the word in `g` (`genre_sum`), `G` is the number of genres present in
`genre_word_counts`, and `df(w)` is the number of those genres whose
count mapping contains the word (`df_count`). -/
theorem score_formula_correct {d : Dataset} {cols : List String} {g : String}
    {ws : List (String × Nat)} {n : Nat} {e : String × Nat × Nat}
    (hg : (g, ws) ∈ genre_word_counts d cols)
    (he : e ∈ top_words (genre_word_counts d cols) ws n) :
    score_val (genre_word_counts d cols).length e.2.1 e.2.2 =
      (genre_sum d g e.1 : ℝ) *
        Real.log (((genre_word_counts d cols).length : ℝ) /
          (df_count (genre_word_counts d cols) e.1 : ℝ)) ∧
    (e.1, score_val (genre_word_counts d cols).length e.2.1 e.2.2) ∈
      genre_result (genre_word_counts d cols) ws n ∧
    (g, genre_result (genre_word_counts d cols) ws n) ∈
      distinctive_words (genre_word_counts d cols) n := by
  obtain ⟨htf, hdf⟩ := top_words_entry_eq hg he
  refine ⟨?_, List.mem_map.mpr ⟨e, he, rfl⟩, List.mem_map.mpr ⟨(g, ws), hg, rfl⟩⟩
  rw [score_val, idf, htf, hdf]

theorem score_formula_correct_witness :
    score_val (genre_word_counts sample_data sample_cols).length 10 1 =
      (genre_sum sample_data "rock" "guitar" : ℝ) *
        Real.log (((genre_word_counts sample_data sample_cols).length : ℝ) /
          (df_count (genre_word_counts sample_data sample_cols) "guitar" : ℝ)) ∧
    ("guitar", score_val (genre_word_counts sample_data sample_cols).length 10 1) ∈
      genre_result (genre_word_counts sample_data sample_cols)
        [("guitar", 10), ("axe", 10), ("love", 5)] 20 ∧
    ("rock", genre_result (genre_word_counts sample_data sample_cols)
        [("guitar", 10), ("axe", 10), ("love", 5)] 20) ∈
      distinctive_words (genre_word_counts sample_data sample_cols) 20 :=
  @score_formula_correct sample_data sample_cols "rock"
    [("guitar", 10), ("axe", 10), ("love", 5)] 20 ("guitar", 10, 1)
    (by decide) (by decide)

/-- C2: every genre entry of the output of
`analyze_genre_distinctive_words` carries a list of (word, score) pairs
that is sorted in non-increasing score order and contains at most
`top_n` entries. -/
theorem result_sorted_and_bounded {gwc : List (String × List (String × Nat))}
    {g : String} {ws : List (String × Nat)} (n : Nat) (hg : (g, ws) ∈ gwc) :
    (g, genre_result gwc ws n) ∈ distinctive_words gwc n ∧
    (genre_result gwc ws n).Pairwise (fun p q => q.2 ≤ p.2) ∧
    (genre_result gwc ws n).length ≤ n :=
  ⟨List.mem_map.mpr ⟨(g, ws), hg, rfl⟩, genre_result_sorted hg, genre_result_length_le⟩

theorem result_sorted_and_bounded_witness :
    ("rock", genre_result (genre_word_counts sample_data sample_cols)
        [("guitar", 10), ("axe", 10), ("love", 5)] 2) ∈
      distinctive_words (genre_word_counts sample_data sample_cols) 2 ∧
    (genre_result (genre_word_counts sample_data sample_cols)
        [("guitar", 10), ("axe", 10), ("love", 5)] 2).Pairwise
      (fun p q => q.2 ≤ p.2) ∧
    (genre_result (genre_word_counts sample_data sample_cols)
        [("guitar", 10), ("axe", 10), ("love", 5)] 2).length ≤ 2 :=
  result_sorted_and_bounded 2 (by decide)

/-- C3: for a word scored in some genre, if it has a positive count in
exactly one genre of `genre_word_counts` its idf equals `ln G` — the
maximum idf attainable for any legal document frequency — and if it has a
positive count in every genre its idf is `0` and its score is `0`
whatever `tf` is. -/
theorem idf_extremes {d : Dataset} {cols : List String} {g w : String}
    {ws : List (String × Nat)} {c : Nat}
    (hg : (g, ws) ∈ genre_word_counts d cols) (_hw : (w, c) ∈ ws) :
    (pos_genres (genre_word_counts d cols) w = 1 →
      idf (genre_word_counts d cols).length
          (df_count (genre_word_counts d cols) w) =
        Real.log ((genre_word_counts d cols).length) ∧
      ∀ df : Nat, 1 ≤ df →
        idf (genre_word_counts d cols).length df ≤
          Real.log ((genre_word_counts d cols).length)) ∧
    (pos_genres (genre_word_counts d cols) w = (genre_word_counts d cols).length →
      idf (genre_word_counts d cols).length
          (df_count (genre_word_counts d cols) w) = 0 ∧
      ∀ tf : Nat, score_val (genre_word_counts d cols).length tf
        (df_count (genre_word_counts d cols) w) = 0) := by
  constructor
  · intro h1
    rw [pos_genres_eq_df_count] at h1
    rw [h1, idf_df_one]
    exact ⟨rfl, fun df hdf => idf_le_log (one_le_length_of_mem hg) hdf⟩
  · intro h2
    rw [pos_genres_eq_df_count] at h2
    rw [h2, idf_df_self]
    exact ⟨rfl, fun tf => by rw [score_val, idf_df_self, mul_zero]⟩

theorem idf_extremes_witness :
    idf (genre_word_counts sample_data sample_cols).length
        (df_count (genre_word_counts sample_data sample_cols) "guitar") =
      Real.log ((genre_word_counts sample_data sample_cols).length) ∧
    idf (genre_word_counts sample_data sample_cols).length
        (df_count (genre_word_counts sample_data sample_cols) "love") = 0 ∧
    score_val (genre_word_counts sample_data sample_cols).length 5
        (df_count (genre_word_counts sample_data sample_cols) "love") = 0 :=
  ⟨((@idf_extremes sample_data sample_cols "rock" "guitar"
      [("guitar", 10), ("axe", 10), ("love", 5)] 10
      (by decide) (by decide)).1 (by decide)).1,
   ((@idf_extremes sample_data sample_cols "rock" "love"
      [("guitar", 10), ("axe", 10), ("love", 5)] 5
      (by decide) (by decide)).2 (by decide)).1,
   ((@idf_extremes sample_data sample_cols "rock" "love"
      [("guitar", 10), ("axe", 10), ("love", 5)] 5
      (by decide) (by decide)).2 (by decide)).2 5⟩

/-- C4: the aggregator records word `w` under genre `g` iff `w` is a named
word column, `w` is a column of the dataset, and the sum of `w`'s counts
over the rows labelled `g` is strictly positive; consequently named
columns absent from the dataset are silently skipped, and no genre value
outside the dataset's genre column appears among the keys of
`genre_word_counts` or of the final result. -/
theorem aggregator_characterisation (d : Dataset) (cols : List String)
    (g w : String) (n : Nat) :
    (recorded (genre_word_counts d cols) g w ↔
      w ∈ cols ∧ w ∈ d.columns ∧ 0 < genre_sum d g w) ∧
    (∀ g', g' ∈ (genre_word_counts d cols).map Prod.fst →
      g' ∈ d.rows.map Row.genre) ∧
    (∀ g', g' ∈ (distinctive_words (genre_word_counts d cols) n).map Prod.fst →
      g' ∈ d.rows.map Row.genre) :=
  ⟨recorded_iff, fun _ h => gwc_keys_sub_genres h,
   fun _ h => gwc_keys_sub_genres (by rwa [keys_distinctive_words] at h)⟩

theorem aggregator_characterisation_witness :
    recorded (genre_word_counts sample_data sample_cols) "rock" "guitar" ∧
    0 < genre_sum sample_data "rock" "guitar" ∧
    "rock" ∈ sample_data.rows.map Row.genre :=
  ⟨(aggregator_characterisation sample_data sample_cols "rock" "guitar" 20).1.mpr
      ⟨by decide, by decide, by decide⟩,
   by decide,
   (aggregator_characterisation sample_data sample_cols "rock" "guitar" 20).2.1
      "rock" (by decide)⟩

/-- C5 counterexample: in `empty_genre_data` the genre `"rock"` is present
and its only word column sums to zero, yet `genre_word_counts` is empty —
`"rock"` is not a key of it, nor of `distinctive_words`, contradicting the
claim that it maps to an empty mapping and appears in the result with an
empty list.  (The `defaultdict` key is only ever created inside the
`total_count > 0` branch.) -/
theorem zero_genre_counterexample :
    "rock" ∈ unique_genres empty_genre_data ∧
    genre_sum empty_genre_data "rock" "w" = 0 ∧
    genre_word_counts empty_genre_data ["w"] = [] ∧
    ((genre_word_counts empty_genre_data ["w"]).map Prod.fst).contains "rock"
      = false ∧
    ((distinctive_words (genre_word_counts empty_genre_data ["w"]) 20).map
      Prod.fst).contains "rock" = false :=
  ⟨by decide, by decide, by decide, by decide, rfl⟩

/-- C5 amended: a genre present in the dataset all of whose named word
columns sum to zero is omitted entirely — it appears neither as a key of
`genre_word_counts` nor as a key of the final result. -/
theorem zero_genre_omitted {d : Dataset} {cols : List String} {g : String}
    (n : Nat) (hz : ∀ w ∈ cols, genre_sum d g w = 0) :
    ((genre_word_counts d cols).map Prod.fst).contains g = false ∧
    ((distinctive_words (genre_word_counts d cols) n).map Prod.fst).contains g
      = false := by
  refine ⟨zero_genre_not_key hz, ?_⟩
  rw [keys_distinctive_words]
  exact zero_genre_not_key hz

theorem zero_genre_omitted_witness :
    ((genre_word_counts empty_genre_data ["w"]).map Prod.fst).contains "rock"
      = false ∧
    ((distinctive_words (genre_word_counts empty_genre_data ["w"]) 20).map
      Prod.fst).contains "rock" = false :=
  zero_genre_omitted 20 (by decide)

/-- C6: whenever the idf expression is evaluated for a word drawn from
some genre's count mapping, its document frequency is at least `1`, so the
division and the logarithm are defined — the `ZeroDivisionError` branch of
the evaluation (`idf_checked`) is unreachable. -/
theorem df_count_safe {d : Dataset} {cols : List String} {g w : String}
    {ws : List (String × Nat)} {c : Nat}
    (hg : (g, ws) ∈ genre_word_counts d cols) (hw : (w, c) ∈ ws) :
    1 ≤ df_count (genre_word_counts d cols) w ∧
    idf_checked (genre_word_counts d cols).length
        (df_count (genre_word_counts d cols) w) =
      some (idf (genre_word_counts d cols).length
        (df_count (genre_word_counts d cols) w)) :=
  ⟨df_count_pos hg hw, idf_checked_eq_some (df_count_pos hg hw)⟩

theorem df_count_safe_witness :
    1 ≤ df_count (genre_word_counts sample_data sample_cols) "guitar" ∧
    idf_checked (genre_word_counts sample_data sample_cols).length
        (df_count (genre_word_counts sample_data sample_cols) "guitar") =
      some (idf (genre_word_counts sample_data sample_cols).length
        (df_count (genre_word_counts sample_data sample_cols) "guitar")) :=
  @df_count_safe sample_data sample_cols "rock" "guitar"
    [("guitar", 10), ("axe", 10), ("love", 5)] 10 (by decide) (by decide)

/-- C7 counterexample: the scorer contains no defensive guard — at
`df_count = 0` the idf evaluation (`idf_checked`) faults
(`ZeroDivisionError`, modelled as `none`) instead of yielding the score
`0` or skipping the word. -/
theorem idf_unguarded_counterexample : idf_checked 2 0 = none := rfl

/-- C7 amended: the scorer has no guard for `df_count = 0`: the idf is
evaluated unconditionally for every word of the genre's mapping (no word
is ever skipped — `word_tf_df` keeps the full length), the evaluation
faults at `df_count = 0`, and it succeeds with the unguarded formula for
any `df_count ≥ 1`, which is the only case reachable from a genre's
mapping. -/
theorem idf_unguarded (G df : Nat) (h : 1 ≤ df) :
    idf_checked G 0 = none ∧
    idf_checked G df = some (idf G df) ∧
    ∀ (gwc : List (String × List (String × Nat))) (ws : List (String × Nat)),
      (word_tf_df gwc ws).length = ws.length :=
  ⟨idf_checked_zero G, idf_checked_eq_some h, fun _ ws => List.length_map ws _⟩

theorem idf_unguarded_witness :
    idf_checked 2 0 = none ∧
    idf_checked 2 1 = some (idf 2 1) ∧
    (word_tf_df (genre_word_counts sample_data sample_cols)
        [("guitar", 10)]).length = [("guitar", (10 : Nat))].length :=
  ⟨(idf_unguarded 2 1 (by decide)).1, (idf_unguarded 2 1 (by decide)).2.1,
   (idf_unguarded 2 1 (by decide)).2.2 _ _⟩

/-- C8: within a genre's ranked list, two entries with equal scores appear
in their original iteration order: if `[a, b]` occurs (as a sublist) in
the ranked list with tied scores, then `[a, b]` already occurs in that
order in the scored-word sequence, and the two words occur in that order
in the genre's count mapping — the sort applies no secondary key, it only
preserves insertion order. -/
theorem tie_order_preserved {d : Dataset} {cols : List String} {g : String}
    {ws : List (String × Nat)} {n : Nat} {a b : String × Nat × Nat}
    (hg : (g, ws) ∈ genre_word_counts d cols)
    (hab : List.Sublist [a, b] (top_words (genre_word_counts d cols) ws n))
    (htie : score_val (genre_word_counts d cols).length a.2.1 a.2.2 =
      score_val (genre_word_counts d cols).length b.2.1 b.2.2) :
    List.Sublist [a, b] (word_tf_df (genre_word_counts d cols) ws) ∧
      List.Sublist [(a.1, a.2.1), (b.1, b.2.1)] ws := by
  have hG := one_le_length_of_mem hg
  have hsub : List.Sublist [a, b]
      (List.insertionSort (score_ge (genre_word_counts d cols).length)
        (word_tf_df (genre_word_counts d cols) ws)) :=
    hab.trans (List.take_sublist _ _)
  have hnd_wtd : (word_tf_df (genre_word_counts d cols) ws).Nodup :=
    nodup_word_tf_df (nodup_ws_of_mem_gwc hg)
  have hnd_sorted :
      (List.insertionSort (score_ge (genre_word_counts d cols).length)
        (word_tf_df (genre_word_counts d cols) ws)).Nodup :=
    (List.perm_insertionSort _ _).nodup_iff.mpr hnd_wtd
  have ha : a ∈ word_tf_df (genre_word_counts d cols) ws :=
    (List.mem_insertionSort _).mp (hsub.subset (by simp))
  have hb : b ∈ word_tf_df (genre_word_counts d cols) ws :=
    (List.mem_insertionSort _).mp (hsub.subset (by simp))
  have hane : a ≠ b := by
    intro h
    subst h
    have := hnd_sorted.sublist hsub
    simp at this
  have hda := df_pos_of_mem_word_tf_df hg ha
  have hdb := df_pos_of_mem_word_tf_df hg hb
  have hba_rel : score_ge (genre_word_counts d cols).length b a :=
    (score_ge_iff_score_val hG hdb hda).mpr (le_of_eq htie)
  have hfirst : List.Sublist [a, b] (word_tf_df (genre_word_counts d cols) ws) := by
    rcases pair_sublist_of_mem ha hb hane with h | h
    · exact h
    · haveI : IsTotal (String × Nat × Nat)
          (score_ge (genre_word_counts d cols).length) := ⟨score_ge_total _⟩
      haveI : IsTrans (String × Nat × Nat)
          (score_ge (genre_word_counts d cols).length) :=
        ⟨fun _ _ _ => score_ge_trans hG⟩
      have hswap := List.pair_sublist_insertionSort hba_rel h
      exact absurd (sublist_pair_antisymm hnd_sorted hsub hswap) hane
  refine ⟨hfirst, ?_⟩
  obtain ⟨l', hl', hmap⟩ := List.sublist_map_iff.mp hfirst
  match l', hmap with
  | [p, q], hmap =>
    simp only [List.map_cons, List.map_nil, List.cons.injEq, and_true] at hmap
    obtain ⟨hpa, hqb⟩ := hmap
    subst hpa
    subst hqb
    simpa using hl'

theorem tie_order_preserved_witness :
    List.Sublist [("guitar", 10, 1), ("axe", 10, 1)]
      (word_tf_df (genre_word_counts sample_data sample_cols)
        [("guitar", 10), ("axe", 10), ("love", 5)]) ∧
    List.Sublist [("guitar", (10 : Nat)), ("axe", 10)]
      [("guitar", 10), ("axe", 10), ("love", 5)] :=
  @tie_order_preserved sample_data sample_cols "rock"
    [("guitar", 10), ("axe", 10), ("love", 5)] 20 ("guitar", 10, 1) ("axe", 10, 1)
    (by decide) (by decide) rfl

/-- C9: `save_individual_wordclouds` computes each genre's output path as
the `save_path` prefix, the genre name with every `'/'` replaced by `'_'`,
and the suffix `"_wordcloud.png"`; no `'/'` survives sanitisation, and the
path is a deterministic function of `(save_path, genre)` — two calls with
the same genre name target the same file. -/
theorem wordcloud_path_spec (sp g sp' g' : String) (h1 : sp = sp')
    (h2 : g = g') :
    wordcloud_path sp g = sp ++ sanitize_genre g ++ "_wordcloud.png" ∧
    (sanitize_genre g).data = g.data.map (fun c => if c = '/' then '_' else c) ∧
    ((sanitize_genre g).data.all (fun c => !(c == '/'))) = true ∧
    wordcloud_path sp g = wordcloud_path sp' g' := by
  refine ⟨rfl, rfl, ?_, by rw [h1, h2]⟩
  rw [List.all_eq_true]
  intro c hc
  obtain ⟨c', hc', he⟩ :=
    List.mem_map.mp (hc : c ∈ g.data.map (fun c => if c = '/' then '_' else c))
  subst he
  by_cases h : c' = '/' <;> simp [h]

theorem wordcloud_path_spec_witness :
    wordcloud_path "./" "pop/rock" =
      "./" ++ sanitize_genre "pop/rock" ++ "_wordcloud.png" ∧
    (sanitize_genre "pop/rock").data =
      "pop/rock".data.map (fun c => if c = '/' then '_' else c) ∧
    ((sanitize_genre "pop/rock").data.all (fun c => !(c == '/'))) = true ∧
    wordcloud_path "./" "pop/rock" = wordcloud_path "./" "pop/rock" ∧
    sanitize_genre "pop/rock" = "pop_rock" :=
  ⟨(wordcloud_path_spec "./" "pop/rock" "./" "pop/rock" rfl rfl).1,
   (wordcloud_path_spec "./" "pop/rock" "./" "pop/rock" rfl rfl).2.1,
   (wordcloud_path_spec "./" "pop/rock" "./" "pop/rock" rfl rfl).2.2.1,
   (wordcloud_path_spec "./" "pop/rock" "./" "pop/rock" rfl rfl).2.2.2,
   by decide⟩

/-- C10: both renderers build the frequency dictionary over the display
form of each word — every underscore replaced by a space and every key of
the dictionary the display form of some scored word — and the value found
under a word's display key is the score of the last word in iteration
order whose display form collides with it, so of two distinct words that
become equal strings only the later one's score survives. -/
theorem word_freq_spec (l : List (String × ℝ)) (w : String) (s : ℝ)
    (_h : (w, s) ∈ l) :
    (display_word w).data = w.data.map (fun c => if c = '_' then ' ' else c) ∧
    List.lookup (display_word w) (word_freq l) =
      ((l.filter (fun q => display_word q.1 == display_word w)).getLast?).map
        Prod.snd ∧
    ∀ p ∈ word_freq l, ∃ q ∈ l, p.1 = display_word q.1 :=
  ⟨rfl, lookup_word_freq l _, key_of_word_freq l⟩

theorem word_freq_spec_witness :
    List.lookup (display_word "a_b") (word_freq collide_list) =
      ((collide_list.filter
        (fun q => display_word q.1 == display_word "a_b")).getLast?).map
        Prod.snd ∧
    ((collide_list.filter
        (fun q => display_word q.1 == display_word "a_b")).getLast?).map
        Prod.snd = some (2 : ℝ) ∧
    display_word "a_b" = display_word "a b" :=
  ⟨(word_freq_spec collide_list "a_b" 1 (List.mem_cons_self _ _)).2.1, rfl,
   by decide⟩
